import Mathlib

/-!
Shallow embedding of `src/log.c` (a minimal semihosting logging facility).

The C file keeps one process-wide state struct `L` (lock hook, lock user
data, threshold level, quiet flag, fixed table of 32 callbacks) and offers:
`log_set_level`, `log_set_quiet`, `log_set_lock`, `log_add_callback`, and
`log_log`.  `log_log` acquires the lock hook, runs the primary sink
(`stdout_callback`, which formats into a static `char buf[LOG_BUFFER_SIZE]`
and writes it out via semihosting) when `!L.quiet && level >= L.level`,
then iterates the callback table until the first slot with a null function
pointer, invoking every entry whose minimum level is `<= level`, and finally
releases the lock hook.

Function pointers (`log_LogFn`, `log_LockFn`) and `void*` user data are
modelled abstractly as `Option Nat` / `Nat`; a null function pointer is
`none`.  `int` values are modelled as `Int`.  The observable behaviour of
one `log_log` call is modelled as a trace of actions.
-/

namespace LogC

/-- The constant `MAX_CALLBACKS` from log.c. -/
def MAX_CALLBACKS : Nat := 32

/-- The `Callback` struct: function pointer (null = `none`), user data,
minimum level. -/
structure Callback where
  fn : Option Nat
  udata : Nat
  level : Int
deriving DecidableEq, Repr

instance : Inhabited Callback := ⟨⟨none, 0, 0⟩⟩

/-- The global state struct `L` of log.c.  The callback array is a list
whose length is `MAX_CALLBACKS` in every reachable state. -/
structure LogState where
  udata : Nat
  lock : Option Nat
  level : Int
  quiet : Bool
  callbacks : List Callback
deriving DecidableEq, Repr

/-- The operation `log_set_level`. -/
def log_set_level (s : LogState) (level : Int) : LogState :=
  { s with level := level }

/-- The operation `log_set_quiet`. -/
def log_set_quiet (s : LogState) (enable : Bool) : LogState :=
  { s with quiet := enable }

/-- The operation `log_set_lock`. -/
def log_set_lock (s : LogState) (fn : Option Nat) (udata : Nat) : LogState :=
  { s with lock := fn, udata := udata }

/-- The scan of `log_add_callback`: walk the table; at the first slot whose
`fn` is null store the new entry and succeed (`some` = updated table);
if no slot is free, fail (`none`). -/
def addCallbackAux (fn : Option Nat) (udata : Nat) (level : Int) :
    List Callback → Option (List Callback)
  | [] => none
  | c :: rest =>
    if c.fn = none then some (⟨fn, udata, level⟩ :: rest)
    else (addCallbackAux fn udata level rest).map (c :: ·)

/-- The operation `log_add_callback`: returns the C result (`0` success, `-1` full) and
the updated state. -/
def log_add_callback (s : LogState) (fn : Option Nat) (udata : Nat)
    (level : Int) : Int × LogState :=
  match addCallbackAux fn udata level s.callbacks with
  | some cbs => (0, { s with callbacks := cbs })
  | none => (-1, s)

/-- One observable step of a `log_log` call: lock acquisition/release,
the primary sink (`stdout_callback` on the semihosting channel), or the
invocation of the registered callback in slot `i`. -/
inductive Action where
  | acquire : Action
  | release : Action
  | primary : Action
  | observer : Nat → Action
deriving DecidableEq, Repr

/-- The callback loop of `log_log` (`for (i = 0; i < MAX_CALLBACKS &&
L.callbacks[i].fn; i++) { if (level >= cb->level) cb->fn(&ev); }`):
stops at the first null `fn`, invokes qualifying entries in slot order.
`i0` is the index of the first list element. -/
def dispatchLoop (level : Int) : List Callback → Nat → List Action
  | [], _ => []
  | c :: rest, i0 =>
    if c.fn = none then []
    else
      (if level ≥ c.level then [Action.observer i0] else []) ++
        dispatchLoop level rest (i0 + 1)

/-- The trace of one `log_log` call: `lock()`, the primary-sink branch
(`!L.quiet && level >= L.level`), the callback loop, `unlock()`.
`lock()`/`unlock()` invoke the hook only when `L.lock` is non-null. -/
def log_log (s : LogState) (level : Int) : List Action :=
  (if s.lock.isSome then [Action.acquire] else []) ++
    (if !s.quiet && decide (level ≥ s.level) then [Action.primary] else []) ++
    dispatchLoop level s.callbacks 0 ++
    (if s.lock.isSome then [Action.release] else [])

/-- The occupied prefix of the callback table: the slots the dispatch loop
visits before stopping. -/
def occupiedPrefixLen (cbs : List Callback) : Nat :=
  (cbs.takeWhile (fun c => c.fn.isSome)).length

/-- A callback table is dense when every slot from the first unoccupied one
on is unoccupied (occupied slots form a prefix). -/
def Dense (cbs : List Callback) : Prop :=
  ∀ c ∈ cbs.dropWhile (fun c => c.fn.isSome), c.fn = none

instance (cbs : List Callback) : Decidable (Dense cbs) :=
  List.decidableBAll _ _

/-- The initial value of the static struct `L`: zero-initialized
(threshold `TRACE = 0`, quiet false, no lock, all 32 callback slots
null). -/
def initState : LogState :=
  { udata := 0, lock := none, level := 0, quiet := false,
    callbacks := List.replicate MAX_CALLBACKS default }

/-- The states reachable from the initial state through the public
operations (`log_log` does not modify the state). -/
inductive Reachable : LogState → Prop where
  | init : Reachable initState
  | set_level (s : LogState) (l : Int) :
      Reachable s → Reachable (log_set_level s l)
  | set_quiet (s : LogState) (b : Bool) :
      Reachable s → Reachable (log_set_quiet s b)
  | set_lock (s : LogState) (f : Option Nat) (u : Nat) :
      Reachable s → Reachable (log_set_lock s f u)
  | add_callback (s : LogState) (f : Option Nat) (u : Nat) (l : Int) :
      Reachable s → Reachable (log_add_callback s f u l).2

/-!
The Event Formatter: `stdout_callback` renders one event into the static
`char buf[LOG_BUFFER_SIZE]` and emits `buf[0..pos)` via `semihosting_write`.
The formatter state is the pair (bytes written so far at indices
`0..content.length`, the C variable `pos`); `pos` can run ahead of
`content.length` because `snprintf` returns the untruncated length.
`C` stands for `LOG_BUFFER_SIZE` (`sizeof(buf)`), a build-time constant
defined in the missing header log.h.  Subtraction below is `Nat`
subtraction; the model is faithful for `C ≥ 2` (for smaller `C` the C code
itself computes out-of-range `size_t` values).
-/

/-- The table `static const char *level_strings[]`. -/
def level_strings : Fin 6 → List Char
  | 0 => "TRACE".toList
  | 1 => "DEBUG".toList
  | 2 => "INFO".toList
  | 3 => "WARN".toList
  | 4 => "ERROR".toList
  | 5 => "FATAL".toList

/-- The operation `log_level_string`. -/
def log_level_string (level : Fin 6) : List Char :=
  level_strings level

/-- The step `pos += strftime(buf + pos, sizeof(buf) - pos, "%H:%M:%S", ev->time)`:
writes the rendered time (and its terminator) only when it fits in the
remaining space, otherwise writes nothing and returns 0. -/
def putTime (C : Nat) (st : List Char × Nat) (timeStr : List Char) :
    List Char × Nat :=
  if timeStr.length + 1 ≤ C - st.2 then
    (st.1 ++ timeStr, st.2 + timeStr.length)
  else st

/-- The step `if (pos < sizeof(buf) - 1) buf[pos++] = ch;`. -/
def putChar (C : Nat) (st : List Char × Nat) (ch : Char) :
    List Char × Nat :=
  if st.2 < C - 1 then (st.1 ++ [ch], st.2 + 1) else st

/-- The copy loop `while (*s && pos < sizeof(buf) - 1) buf[pos++] = *s++;`
(the level-string and file-name copy loops). -/
def putStrBounded (C : Nat) (st : List Char × Nat) (s : List Char) :
    List Char × Nat :=
  let k := min s.length (C - 1 - st.2)
  (st.1 ++ s.take k, st.2 + k)

/-- The step `pos += snprintf(buf + pos, sizeof(buf) - pos, "%d", ev->line)`:
writes at most `size - 1` characters but advances `pos` by the full
untruncated length (the `snprintf` return value). -/
def putSnprintf (C : Nat) (st : List Char × Nat) (s : List Char) :
    List Char × Nat :=
  (st.1 ++ s.take (C - st.2 - 1), st.2 + s.length)

/-- The message expansion block: guarded by `pos < sizeof(buf)`;
`vsnprintf` writes at most `remaining - 1` characters, and `pos` advances
by `min(msg_len, remaining - 1)`. -/
def putMsg (C : Nat) (st : List Char × Nat) (msg : List Char) :
    List Char × Nat :=
  if st.2 < C then
    (st.1 ++ msg.take (C - st.2 - 1),
      st.2 + if msg.length < C - st.2 then msg.length else C - st.2 - 1)
  else st

/-- The tail of `stdout_callback`: clamp `pos` to `sizeof(buf) - 2`,
write the newline at `buf[pos]`, and emit `buf[0..pos+1)`. -/
def finishLine (C : Nat) (st : List Char × Nat) : List Char :=
  let pos := if C - 1 ≤ st.2 then C - 2 else st.2
  st.1.take pos ++ ['\n']

/-- Decimal rendering of `ev->line` by `snprintf "%d"`. -/
def lineStr (line : Int) : List Char :=
  (toString line).toList

/-- The formatter `stdout_callback`, as the list of bytes handed to `semihosting_write`.
`timeStr` is the `"%H:%M:%S"` rendering of `ev->time` (8 characters for
every valid time), `msg` the full `vsnprintf` expansion of
`ev->fmt`/`ev->ap`. -/
def stdout_callback (C : Nat) (timeStr : List Char) (level : Fin 6)
    (file : List Char) (line : Int) (msg : List Char) : List Char :=
  let st : List Char × Nat := ([], 0)
  let st := putTime C st timeStr
  let st := putChar C st ' '
  let st := putStrBounded C st (level_strings level)
  let st := putChar C st ' '
  let st := putStrBounded C st file
  let st := putChar C st ':'
  let st := putSnprintf C st (lineStr line)
  let st := putChar C st ':'
  let st := putChar C st ' '
  let st := putMsg C st msg
  finishLine C st

/-- The formatter-state invariant: the number of bytes written so far is
the C variable `pos` capped at `C - 1` (`pos` runs ahead only when the
line-number `snprintf` truncates). -/
def FmtInv (C : Nat) (st : List Char × Nat) : Prop :=
  st.1.length = min st.2 (C - 1)

/-- The slot indices whose callbacks the dispatch loop invokes for a call
at `level`: indices inside the occupied prefix whose minimum level is at
most `level`. -/
def qualIdx (cbs : List Callback) (level : Int) : List Nat :=
  (List.range (occupiedPrefixLen cbs)).filter
    (fun i => decide (level ≥ (cbs.getD i default).level))

/-- The index of the first unoccupied slot (the slot `log_add_callback`
writes to). -/
def firstFree (cbs : List Callback) : Nat :=
  cbs.findIdx (fun c => c.fn.isNone)

/-- Action `a` occurs strictly before action `b` in the list `l`. -/
def OccursBefore (a b : Action) (l : List Action) : Prop :=
  ∃ l1 l2 l3, l = l1 ++ a :: (l2 ++ b :: l3)

/-! ### The dispatch loop -/

theorem dispatchLoop_eq (level : Int) :
    ∀ (cbs : List Callback) (i0 : Nat),
      dispatchLoop level cbs i0 =
        (qualIdx cbs level).map (fun k => Action.observer (i0 + k))
  | [], i0 => by
    rfl
  | c :: rest, i0 => by
    by_cases hc : c.fn = none
    · have hs : c.fn.isSome = false := by simp [hc]
      simp [dispatchLoop, hc, qualIdx, occupiedPrefixLen,
        List.takeWhile_cons, hs]
    · have hs : c.fn.isSome = true := by
        cases h : c.fn with
        | none => exact absurd h hc
        | some v => simp
      have hlen : occupiedPrefixLen (c :: rest) = occupiedPrefixLen rest + 1 := by
        simp [occupiedPrefixLen, List.takeWhile_cons, hs]
      have hpred : (fun i => decide (level ≥ (((c :: rest).getD i default).level)))
          ∘ Nat.succ = fun i => decide (level ≥ ((rest.getD i default).level)) := by
        funext k
        simp [Function.comp, List.getD_cons_succ]
      have hmap : ∀ Q : List Nat,
          (Q.map Nat.succ).map (fun k => Action.observer (i0 + k)) =
            Q.map (fun k => Action.observer (i0 + 1 + k)) := by
        intro Q
        rw [List.map_map]
        refine List.map_congr_left fun a _ => ?_
        simp only [Function.comp_apply]
        exact congrArg Action.observer (by omega)
      simp only [dispatchLoop, if_neg hc]
      rw [dispatchLoop_eq level rest (i0 + 1)]
      simp only [qualIdx]
      rw [hlen, List.range_succ_eq_map, List.filter_cons, List.filter_map, hpred]
      by_cases h0 : level ≥ c.level
      · simp [h0, hmap, List.getD_cons_zero]
      · simp [h0, hmap, List.getD_cons_zero]

theorem mem_qualIdx (cbs : List Callback) (level : Int) (i : Nat) :
    i ∈ qualIdx cbs level ↔
      i < occupiedPrefixLen cbs ∧ level ≥ (cbs.getD i default).level := by
  simp [qualIdx, List.mem_filter, List.mem_range]

theorem observer_mem_dispatchLoop (cbs : List Callback) (level : Int) (i : Nat) :
    Action.observer i ∈ dispatchLoop level cbs 0 ↔ i ∈ qualIdx cbs level := by
  rw [dispatchLoop_eq]
  simp

theorem primary_not_mem_dispatchLoop (cbs : List Callback) (level : Int) (i0 : Nat) :
    Action.primary ∉ dispatchLoop level cbs i0 := by
  rw [dispatchLoop_eq]
  simp

theorem acquire_not_mem_dispatchLoop (cbs : List Callback) (level : Int) (i0 : Nat) :
    Action.acquire ∉ dispatchLoop level cbs i0 := by
  rw [dispatchLoop_eq]
  simp

theorem release_not_mem_dispatchLoop (cbs : List Callback) (level : Int) (i0 : Nat) :
    Action.release ∉ dispatchLoop level cbs i0 := by
  rw [dispatchLoop_eq]
  simp

/-! ### Membership in a `log_log` trace -/

theorem primary_mem_log_log (s : LogState) (level : Int) :
    Action.primary ∈ log_log s level ↔ s.quiet = false ∧ level ≥ s.level := by
  simp only [log_log, List.mem_append]
  have hd := primary_not_mem_dispatchLoop s.callbacks level 0
  split_ifs <;> simp_all

theorem observer_mem_log_log (s : LogState) (level : Int) (i : Nat) :
    Action.observer i ∈ log_log s level ↔ i ∈ qualIdx s.callbacks level := by
  simp only [log_log, List.mem_append]
  have hd := observer_mem_dispatchLoop s.callbacks level i
  split_ifs <;> simp_all

/-- C1: for every call `log(level, file, line, fmt, ...)`, the primary sink
path (format the event and write it to the transport sink) executes if and
only if the quiet flag is false and `level` is at least the global
threshold level. -/
theorem primary_sink_fires_iff (s : LogState) (level : Int) :
    Action.primary ∈ log_log s level ↔ s.quiet = false ∧ level ≥ s.level :=
  primary_mem_log_log s level

/-! ### The occupied prefix and density -/

theorem occupiedPrefixLen_cons (c : Callback) (rest : List Callback) :
    occupiedPrefixLen (c :: rest) =
      if c.fn.isSome then occupiedPrefixLen rest + 1 else 0 := by
  simp only [occupiedPrefixLen, List.takeWhile_cons]
  split_ifs <;> simp

theorem occupiedPrefixLen_le_length (cbs : List Callback) :
    occupiedPrefixLen cbs ≤ cbs.length :=
  (List.takeWhile_sublist _).length_le

theorem occ_of_lt_occupiedPrefixLen :
    ∀ (cbs : List Callback) (j : Nat), j < occupiedPrefixLen cbs →
      (cbs.getD j default).fn.isSome = true
  | [], j, h => by simp [occupiedPrefixLen] at h
  | c :: rest, j, h => by
    rw [occupiedPrefixLen_cons] at h
    by_cases hs : c.fn.isSome
    · rw [if_pos hs] at h
      cases j with
      | zero => simpa using hs
      | succ j =>
        rw [List.getD_cons_succ]
        exact occ_of_lt_occupiedPrefixLen rest j (by omega)
    · rw [if_neg hs] at h
      omega

theorem dense_cons_some {c : Callback} {rest : List Callback}
    (h : Dense (c :: rest)) (hs : c.fn.isSome = true) : Dense rest := by
  unfold Dense at h ⊢
  rw [List.dropWhile_cons] at h
  simpa [hs] using h

theorem dense_cons_none {c : Callback} {rest : List Callback}
    (h : Dense (c :: rest)) (hs : c.fn.isSome = false) :
    ∀ x ∈ c :: rest, x.fn = none := by
  unfold Dense at h
  rw [List.dropWhile_cons] at h
  simpa [hs] using h

theorem lt_occupiedPrefixLen_of_occ :
    ∀ (cbs : List Callback), Dense cbs → ∀ j < cbs.length,
      (cbs.getD j default).fn ≠ none → j < occupiedPrefixLen cbs
  | [], _, j, hj, _ => by simp at hj
  | c :: rest, hd, j, hj, hocc => by
    rw [occupiedPrefixLen_cons]
    by_cases hs : c.fn.isSome
    · rw [if_pos hs]
      cases j with
      | zero => omega
      | succ j =>
        have := lt_occupiedPrefixLen_of_occ rest (dense_cons_some hd hs) j
          (by simpa using hj) (by rwa [List.getD_cons_succ] at hocc)
        omega
    · exfalso
      refine hocc ?_
      have hmem : (c :: rest).getD j default ∈ c :: rest := by
        rw [List.getD_eq_getElem _ _ hj]
        exact List.getElem_mem hj
      exact dense_cons_none hd (by simpa using hs) _ hmem

/-! ### `log_add_callback` -/

theorem addCallbackAux_eq_none_iff (f : Option Nat) (u : Nat) (l : Int) :
    ∀ cbs : List Callback,
      addCallbackAux f u l cbs = none ↔ ∀ c ∈ cbs, c.fn ≠ none
  | [] => by simp [addCallbackAux]
  | c :: rest => by
    by_cases hc : c.fn = none
    · simp [addCallbackAux, hc]
    · simp [addCallbackAux, hc, addCallbackAux_eq_none_iff f u l rest]

theorem addCallbackAux_eq_some (f : Option Nat) (u : Nat) (l : Int) :
    ∀ cbs : List Callback, (∃ c ∈ cbs, c.fn = none) →
      addCallbackAux f u l cbs = some (cbs.set (firstFree cbs) ⟨f, u, l⟩)
  | [], hfree => by simp at hfree
  | c :: rest, hfree => by
    by_cases hc : c.fn = none
    · have : c.fn.isNone = true := by simp [hc]
      simp [addCallbackAux, hc, firstFree, List.findIdx_cons, this]
    · have hn : c.fn.isNone = false := by
        cases h : c.fn
        · exact absurd h hc
        · simp
      have hrest : ∃ x ∈ rest, x.fn = none := by
        rcases hfree with ⟨x, hx, hxn⟩
        rcases List.mem_cons.mp hx with rfl | hx
        · exact absurd hxn hc
        · exact ⟨x, hx, hxn⟩
      simp [addCallbackAux, hc, firstFree, List.findIdx_cons, hn,
        addCallbackAux_eq_some f u l rest hrest]

theorem firstFree_lt_length (cbs : List Callback)
    (hfree : ∃ c ∈ cbs, c.fn = none) : firstFree cbs < cbs.length := by
  rcases hfree with ⟨c, hc, hcn⟩
  refine List.findIdx_lt_length_of_exists ⟨c, hc, ?_⟩
  simp [hcn]

/-- C3: `register_callback` succeeds (stores the entry in the first
unoccupied slot and returns the success outcome `0`) whenever the
fixed-capacity table has an unoccupied slot; when the table is full the
registration returns the distinct capacity-error outcome `-1` and leaves
the state, in particular the whole table, unchanged. -/
theorem add_callback_capacity (s : LogState) (f : Option Nat) (u : Nat)
    (l : Int) :
    ((∃ c ∈ s.callbacks, c.fn = none) →
      (log_add_callback s f u l).1 = 0 ∧
        (log_add_callback s f u l).2.callbacks =
          s.callbacks.set (firstFree s.callbacks) ⟨f, u, l⟩) ∧
    ((∀ c ∈ s.callbacks, c.fn ≠ none) →
      (log_add_callback s f u l).1 = -1 ∧ (log_add_callback s f u l).1 ≠ 0 ∧
        (log_add_callback s f u l).2 = s) := by
  constructor
  · intro hfree
    rw [log_add_callback, addCallbackAux_eq_some f u l s.callbacks hfree]
    exact ⟨rfl, rfl⟩
  · intro hfull
    rw [log_add_callback, (addCallbackAux_eq_none_iff f u l s.callbacks).mpr hfull]
    refine ⟨rfl, ?_, rfl⟩
    show (-1 : Int) ≠ 0
    decide

/-- Witness for C3 at a concrete input: registering into the fresh table
stores the entry in slot 0 and returns 0. -/
theorem add_callback_capacity_witness :
    (log_add_callback initState (some 3) 1 2).1 = 0 ∧
      (log_add_callback initState (some 3) 1 2).2.callbacks =
        initState.callbacks.set (firstFree initState.callbacks) ⟨some 3, 1, 2⟩ :=
  (add_callback_capacity initState (some 3) 1 2).1 (by decide)

/-- C2: a registered callback entry fires if and only if the call level is
at least the entry's minimum level, independently of the quiet flag and of
the global threshold. -/
theorem callback_fires_iff (s : LogState) (level : Int) (i : Nat)
    (hd : Dense s.callbacks) (hi : i < s.callbacks.length)
    (hocc : (s.callbacks.getD i default).fn ≠ none) :
    (Action.observer i ∈ log_log s level ↔
       level ≥ (s.callbacks.getD i default).level) ∧
    (∀ (q : Bool) (t : Int),
       Action.observer i ∈ log_log { s with quiet := q, level := t } level ↔
         Action.observer i ∈ log_log s level) := by
  constructor
  · rw [observer_mem_log_log, mem_qualIdx]
    have hlt := lt_occupiedPrefixLen_of_occ s.callbacks hd i hi hocc
    exact ⟨fun h => h.2, fun h => ⟨hlt, h⟩⟩
  · intro q t
    rw [observer_mem_log_log, observer_mem_log_log]

/-- Witness for C2 at a concrete input: after registering one callback
with minimum level 2, a call at level 5 invokes it, and flipping quiet or
the threshold does not change that. -/
theorem callback_fires_iff_witness :
    (Action.observer 0 ∈ log_log (log_add_callback initState (some 7) 0 2).2 5 ↔
       (5 : Int) ≥
         (((log_add_callback initState (some 7) 0 2).2.callbacks.getD 0
             default).level)) ∧
    (∀ (q : Bool) (t : Int),
       Action.observer 0 ∈
           log_log { (log_add_callback initState (some 7) 0 2).2 with
                      quiet := q, level := t } 5 ↔
         Action.observer 0 ∈ log_log (log_add_callback initState (some 7) 0 2).2 5) :=
  callback_fires_iff (log_add_callback initState (some 7) 0 2).2 5 0
    (by decide) (by decide) (by decide)

/-! ### Density is an invariant of the reachable states -/

theorem mem_of_mem_dropWhile {p : Callback → Bool} {x : Callback}
    {l : List Callback} (h : x ∈ l.dropWhile p) : x ∈ l :=
  (List.dropWhile_sublist p).mem h

theorem dense_of_all_none {l : List Callback}
    (h : ∀ x ∈ l, x.fn = none) : Dense l :=
  fun c hc => h c (mem_of_mem_dropWhile hc)

theorem dense_addCallbackAux (f : Option Nat) (u : Nat) (l : Int) :
    ∀ (cbs : List Callback), Dense cbs → ∀ cbs',
      addCallbackAux f u l cbs = some cbs' → Dense cbs'
  | [], _, cbs', h => by simp [addCallbackAux] at h
  | c :: rest, hd, cbs', h => by
    by_cases hc : c.fn = none
    · rw [addCallbackAux, if_pos hc] at h
      obtain rfl : (⟨f, u, l⟩ : Callback) :: rest = cbs' := by
        simpa using h
      have hall : ∀ x ∈ rest, x.fn = none := fun x hx =>
        dense_cons_none hd (by simp [hc]) x (List.mem_cons_of_mem c hx)
      by_cases hf : (⟨f, u, l⟩ : Callback).fn.isSome
      · intro x hx
        rw [List.dropWhile_cons, if_pos hf] at hx
        exact hall x (mem_of_mem_dropWhile hx)
      · refine dense_of_all_none ?_
        intro x hx
        rcases List.mem_cons.mp hx with rfl | hx
        · simpa using hf
        · exact hall x hx
    · rw [addCallbackAux, if_neg hc] at h
      rcases Option.map_eq_some'.mp h with ⟨rest', hrest, rfl⟩
      have hs : c.fn.isSome = true := by
        cases hfn : c.fn
        · exact absurd hfn hc
        · simp
      have hdr : Dense rest' :=
        dense_addCallbackAux f u l rest (dense_cons_some hd hs) rest' hrest
      intro x hx
      rw [List.dropWhile_cons, if_pos hs] at hx
      exact hdr x hx

theorem reachable_dense {s : LogState} (h : Reachable s) :
    Dense s.callbacks := by
  induction h with
  | init => decide
  | set_level s l _ ih => exact ih
  | set_quiet s b _ ih => exact ih
  | set_lock s f u _ ih => exact ih
  | add_callback s f u l _ ih =>
    rw [log_add_callback]
    cases haux : addCallbackAux f u l s.callbacks with
    | none => exact ih
    | some cbs' => exact dense_addCallbackAux f u l s.callbacks ih cbs' haux

/-- C9: in every reachable state the callback registry is dense — an
occupied slot has only occupied slots below it — and a slot is occupied
exactly when it lies inside the prefix the dispatch loop iterates over, so
the loop visits exactly the registered entries in slot (= registration)
order. -/
theorem registry_dense_invariant (s : LogState) (h : Reachable s) :
    (∀ i j, j < i → i < s.callbacks.length →
       (s.callbacks.getD i default).fn ≠ none →
       (s.callbacks.getD j default).fn ≠ none) ∧
    (∀ i, i < s.callbacks.length →
       ((s.callbacks.getD i default).fn ≠ none ↔
          i < occupiedPrefixLen s.callbacks)) := by
  have hd := reachable_dense h
  constructor
  · intro i j hji hi hocc
    have hlt := lt_occupiedPrefixLen_of_occ s.callbacks hd i hi hocc
    have hj := occ_of_lt_occupiedPrefixLen s.callbacks j (by omega)
    simp only [Option.isSome_iff_ne_none] at hj
    exact hj
  · intro i hi
    constructor
    · exact lt_occupiedPrefixLen_of_occ s.callbacks hd i hi
    · intro hlt
      have hocc := occ_of_lt_occupiedPrefixLen s.callbacks i hlt
      simp only [Option.isSome_iff_ne_none] at hocc
      exact hocc

/-- Witness for C9 at a concrete reachable state: after two registrations
slots 0 and 1 are occupied and the iterated prefix is exactly them. -/
theorem registry_dense_invariant_witness :
    (∀ i j, j < i →
       i < (log_add_callback (log_add_callback initState (some 1) 0 0).2
              (some 2) 0 1).2.callbacks.length →
       (((log_add_callback (log_add_callback initState (some 1) 0 0).2
            (some 2) 0 1).2.callbacks.getD i default).fn ≠ none) →
       (((log_add_callback (log_add_callback initState (some 1) 0 0).2
            (some 2) 0 1).2.callbacks.getD j default).fn ≠ none)) ∧
    (∀ i, i < (log_add_callback (log_add_callback initState (some 1) 0 0).2
                 (some 2) 0 1).2.callbacks.length →
       ((((log_add_callback (log_add_callback initState (some 1) 0 0).2
             (some 2) 0 1).2.callbacks.getD i default).fn ≠ none) ↔
          i < occupiedPrefixLen
                (log_add_callback (log_add_callback initState (some 1) 0 0).2
                   (some 2) 0 1).2.callbacks)) :=
  registry_dense_invariant _
    (Reachable.add_callback _ (some 2) 0 1
      (Reachable.add_callback _ (some 1) 0 0 Reachable.init))

/-! ### Null-observer registrations -/

theorem occ_of_lt_firstFree :
    ∀ (cbs : List Callback) (j : Nat), j < firstFree cbs →
      (cbs.getD j default).fn ≠ none
  | [], j, h => by simp [firstFree, List.findIdx_nil] at h
  | c :: rest, j, h => by
    rw [firstFree, List.findIdx_cons] at h
    by_cases hc : c.fn.isNone
    · simp [hc] at h
    · simp only [hc, cond_false] at h
      cases j with
      | zero =>
        rw [List.getD_cons_zero]
        simpa [Option.isNone_iff_eq_none] using hc
      | succ j =>
        rw [List.getD_cons_succ]
        refine occ_of_lt_firstFree rest j ?_
        rw [firstFree]
        omega

theorem firstFree_set_firstFree :
    ∀ (cbs : List Callback) (e : Callback), e.fn = none →
      firstFree (cbs.set (firstFree cbs) e) = firstFree cbs
  | [], e, he => by simp [firstFree]
  | c :: rest, e, he => by
    by_cases hc : c.fn.isNone
    · have h0 : firstFree (c :: rest) = 0 := by
        simp [firstFree, List.findIdx_cons, hc]
      rw [h0]
      show firstFree (e :: rest) = 0
      simp [firstFree, List.findIdx_cons, he]
    · have hsucc : firstFree (c :: rest) = firstFree rest + 1 := by
        simp [firstFree, List.findIdx_cons, hc]
      rw [hsucc]
      show firstFree (c :: rest.set (firstFree rest) e) = firstFree rest + 1
      rw [firstFree, List.findIdx_cons]
      simp only [hc, cond_false]
      have := firstFree_set_firstFree rest e he
      rw [firstFree] at this
      omega

theorem getD_mem (cbs : List Callback) (i : Nat) (hi : i < cbs.length) :
    cbs.getD i default ∈ cbs := by
  rw [List.getD_eq_getElem _ _ hi]
  exact List.getElem_mem hi

/-- C10: registering a null observer function returns the success outcome,
yet the slot it fills still tests as unoccupied: it is never invoked by any
dispatch, and the next registration overwrites the same slot, so the null
registration consumes no capacity and is silently lost. -/
theorem null_registration_lost (s : LogState) (u : Nat) (l : Int)
    (hfree : ∃ c ∈ s.callbacks, c.fn = none) :
    (log_add_callback s none u l).1 = 0 ∧
    ((log_add_callback s none u l).2.callbacks.getD (firstFree s.callbacks)
        default).fn = none ∧
    (∀ level, Action.observer (firstFree s.callbacks) ∉
        log_log (log_add_callback s none u l).2 level) ∧
    (∀ (f' : Option Nat) (u' : Nat) (l' : Int),
       (log_add_callback (log_add_callback s none u l).2 f' u' l').2.callbacks =
         s.callbacks.set (firstFree s.callbacks) ⟨f', u', l'⟩) := by
  have hlt := firstFree_lt_length s.callbacks hfree
  have hmain := addCallbackAux_eq_some none u l s.callbacks hfree
  have hcbs : (log_add_callback s none u l).2.callbacks =
      s.callbacks.set (firstFree s.callbacks) ⟨none, u, l⟩ := by
    rw [log_add_callback, hmain]
  have hres : (log_add_callback s none u l).1 = 0 := by
    rw [log_add_callback, hmain]
  have hslot : ((log_add_callback s none u l).2.callbacks.getD
      (firstFree s.callbacks) default).fn = none := by
    rw [hcbs, List.getD_eq_getElem _ _ (by simpa using hlt)]
    simp [List.getElem_set, hlt]
  refine ⟨hres, hslot, ?_, ?_⟩
  · intro level hmem
    rw [observer_mem_log_log, mem_qualIdx] at hmem
    have hocc := occ_of_lt_occupiedPrefixLen _ _ hmem.1
    rw [hslot] at hocc
    simp at hocc
  · intro f' u' l'
    have hfree' : ∃ c ∈ (log_add_callback s none u l).2.callbacks, c.fn = none := by
      refine ⟨_, getD_mem _ (firstFree s.callbacks) ?_, hslot⟩
      rw [hcbs]
      simpa using hlt
    have hff : firstFree (log_add_callback s none u l).2.callbacks =
        firstFree s.callbacks := by
      rw [hcbs]
      exact firstFree_set_firstFree s.callbacks ⟨none, u, l⟩ rfl
    rw [log_add_callback, addCallbackAux_eq_some f' u' l' _ hfree']
    show ((log_add_callback s none u l).2.callbacks.set
        (firstFree (log_add_callback s none u l).2.callbacks) ⟨f', u', l'⟩) =
      s.callbacks.set (firstFree s.callbacks) ⟨f', u', l'⟩
    rw [hff, hcbs, List.set_set]

/-- Witness for C10 at a concrete input: a null registration on the fresh
table succeeds, slot 0 still tests unoccupied, is never dispatched to, and
the next registration overwrites it. -/
theorem null_registration_lost_witness :
    (log_add_callback initState none 9 4).1 = 0 ∧
    ((log_add_callback initState none 9 4).2.callbacks.getD
        (firstFree initState.callbacks) default).fn = none ∧
    (∀ level, Action.observer (firstFree initState.callbacks) ∉
        log_log (log_add_callback initState none 9 4).2 level) ∧
    (∀ (f' : Option Nat) (u' : Nat) (l' : Int),
       (log_add_callback (log_add_callback initState none 9 4).2 f' u' l').2.callbacks =
         initState.callbacks.set (firstFree initState.callbacks) ⟨f', u', l'⟩) :=
  null_registration_lost initState 9 4 (by decide)

/-! ### Lock discipline and ordering -/

/-- C5: when a lock hook is installed, every dispatch trace starts with
exactly one acquire, ends with exactly one release, and neither occurs
anywhere in between — no path acquires without the matching release. -/
theorem lock_discipline (s : LogState) (level : Int) (h : s.lock.isSome) :
    ∃ mid, log_log s level = Action.acquire :: (mid ++ [Action.release]) ∧
      Action.acquire ∉ mid ∧ Action.release ∉ mid := by
  refine ⟨(if !s.quiet && decide (level ≥ s.level) then [Action.primary]
      else []) ++ dispatchLoop level s.callbacks 0, ?_, ?_, ?_⟩
  · rw [log_log]
    simp [h, List.append_assoc]
  · intro hmem
    rcases List.mem_append.mp hmem with hmem | hmem
    · split_ifs at hmem <;> simp_all
    · exact acquire_not_mem_dispatchLoop _ _ _ hmem
  · intro hmem
    rcases List.mem_append.mp hmem with hmem | hmem
    · split_ifs at hmem <;> simp_all
    · exact release_not_mem_dispatchLoop _ _ _ hmem

/-- Witness for C5 at a concrete input: with a lock installed on the fresh
state, the trace is acquire, primary, release. -/
theorem lock_discipline_witness :
    ∃ mid, log_log { initState with lock := some 1 } 0 =
        Action.acquire :: (mid ++ [Action.release]) ∧
      Action.acquire ∉ mid ∧ Action.release ∉ mid :=
  lock_discipline { initState with lock := some 1 } 0 (by decide)

theorem qualIdx_pairwise (cbs : List Callback) (level : Int) :
    List.Pairwise (· < ·) (qualIdx cbs level) :=
  (List.pairwise_lt_range _).filter _

theorem pairwise_split {l : List Nat} (hp : List.Pairwise (· < ·) l)
    {i j : Nat} (hi : i ∈ l) (hj : j ∈ l) (hij : i < j) :
    ∃ q1 q2 q3, l = q1 ++ i :: (q2 ++ j :: q3) := by
  induction l with
  | nil => simp at hi
  | cons x xs ih =>
    rcases List.pairwise_cons.mp hp with ⟨hx, hxs⟩
    rcases List.mem_cons.mp hi with rfl | hi'
    · have hj' : j ∈ xs := by
        rcases List.mem_cons.mp hj with rfl | hjj
        · omega
        · exact hjj
      rcases List.append_of_mem hj' with ⟨s1, t1, rfl⟩
      exact ⟨[], s1, t1, by simp⟩
    · have hj' : j ∈ xs := by
        rcases List.mem_cons.mp hj with rfl | hjj
        · have := hx i hi'
          omega
        · exact hjj
      rcases ih hxs hi' hj' with ⟨q1, q2, q3, rfl⟩
      exact ⟨x :: q1, q2, q3, by simp⟩

/-- C6: within a single dispatch call the primary sink, when it fires,
executes before every observer callback, and any two qualifying observers
execute in slot (= registration) order. -/
theorem dispatch_ordering (s : LogState) (level : Int) (i j : Nat) :
    (Action.primary ∈ log_log s level → Action.observer i ∈ log_log s level →
       OccursBefore Action.primary (Action.observer i) (log_log s level)) ∧
    (i < j → Action.observer i ∈ log_log s level →
       Action.observer j ∈ log_log s level →
       OccursBefore (Action.observer i) (Action.observer j) (log_log s level)) := by
  have hobs : (fun k => Action.observer (0 + k)) = Action.observer := by
    funext k
    rw [Nat.zero_add]
  constructor
  · intro hp hoi
    have hq := (primary_mem_log_log s level).mp hp
    have hcond : (!s.quiet && decide (level ≥ s.level)) = true := by
      simp [hq.1, hq.2]
    have hiq : i ∈ qualIdx s.callbacks level :=
      (observer_mem_log_log s level i).mp hoi
    obtain ⟨q1, q2, hsplit⟩ := List.append_of_mem hiq
    refine ⟨(if s.lock.isSome then [Action.acquire] else []),
      q1.map Action.observer,
      q2.map Action.observer ++
        (if s.lock.isSome then [Action.release] else []), ?_⟩
    rw [log_log, dispatchLoop_eq, hobs, hsplit, hcond]
    simp [List.append_assoc]
  · intro hij hoi hoj
    have hiq := (observer_mem_log_log s level i).mp hoi
    have hjq := (observer_mem_log_log s level j).mp hoj
    obtain ⟨q1, q2, q3, hsplit⟩ :=
      pairwise_split (qualIdx_pairwise s.callbacks level) hiq hjq hij
    refine ⟨(if s.lock.isSome then [Action.acquire] else []) ++
      (if !s.quiet && decide (level ≥ s.level) then [Action.primary] else []) ++
      q1.map Action.observer,
      q2.map Action.observer,
      q3.map Action.observer ++
        (if s.lock.isSome then [Action.release] else []), ?_⟩
    rw [log_log, dispatchLoop_eq, hobs, hsplit]
    simp [List.append_assoc]

/-- Witness for C6 at a concrete input: with two registered callbacks and a
call that fires the primary sink and both observers, the primary sink
precedes observer 0 and observer 0 precedes observer 1. -/
theorem dispatch_ordering_witness :
    OccursBefore Action.primary (Action.observer 0)
      (log_log (log_add_callback (log_add_callback initState (some 1) 0 0).2
          (some 2) 0 0).2 1) ∧
    OccursBefore (Action.observer 0) (Action.observer 1)
      (log_log (log_add_callback (log_add_callback initState (some 1) 0 0).2
          (some 2) 0 0).2 1) :=
  ⟨(dispatch_ordering (log_add_callback (log_add_callback initState (some 1) 0 0).2
        (some 2) 0 0).2 1 0 1).1 (by decide) (by decide),
   (dispatch_ordering (log_add_callback (log_add_callback initState (some 1) 0 0).2
        (some 2) 0 0).2 1 0 1).2 (by decide) (by decide) (by decide)⟩

/-! ### Formatter bounds -/

theorem putTime_inv {C : Nat} {st : List Char × Nat} {t : List Char}
    (h : FmtInv C st) : FmtInv C (putTime C st t) := by
  unfold FmtInv putTime at *
  split_ifs with hf
  · simp only [List.length_append]
    omega
  · exact h

theorem putChar_inv {C : Nat} {st : List Char × Nat} {ch : Char}
    (h : FmtInv C st) : FmtInv C (putChar C st ch) := by
  unfold FmtInv putChar at *
  split_ifs with hf
  · simp only [List.length_append, List.length_cons, List.length_nil]
    omega
  · exact h

theorem putStrBounded_inv {C : Nat} {st : List Char × Nat} {s : List Char}
    (h : FmtInv C st) : FmtInv C (putStrBounded C st s) := by
  unfold FmtInv putStrBounded at *
  simp only [List.length_append, List.length_take]
  omega

theorem putSnprintf_inv {C : Nat} {st : List Char × Nat} {s : List Char}
    (h : FmtInv C st) : FmtInv C (putSnprintf C st s) := by
  unfold FmtInv putSnprintf at *
  simp only [List.length_append, List.length_take]
  omega

theorem putMsg_inv {C : Nat} {st : List Char × Nat} {msg : List Char}
    (h : FmtInv C st) : FmtInv C (putMsg C st msg) := by
  unfold FmtInv putMsg at *
  split_ifs with hf hm
  · simp only [List.length_append, List.length_take]
    omega
  · simp only [List.length_append, List.length_take]
    omega
  · omega

theorem putMsg_pos_ge (C : Nat) (st : List Char × Nat) (msg : List Char)
    (h2 : 2 ≤ C) (hm : C ≤ msg.length) : C - 1 ≤ (putMsg C st msg).2 := by
  unfold putMsg
  split_ifs with hc hm2
  · show C - 1 ≤ st.2 + msg.length
    omega
  · show C - 1 ≤ st.2 + (C - st.2 - 1)
    omega
  · show C - 1 ≤ st.2
    omega

theorem finishLine_length_le (C : Nat) (st : List Char × Nat) (h2 : 2 ≤ C) :
    (finishLine C st).length ≤ C - 1 := by
  unfold finishLine
  simp only [List.length_append, List.length_take, List.length_cons,
    List.length_nil]
  split_ifs <;> omega

theorem finishLine_getLast (C : Nat) (st : List Char × Nat) :
    (finishLine C st).getLast? = some '\n' := by
  unfold finishLine
  exact List.getLast?_concat _

theorem finishLine_length_of_ge (C : Nat) (st : List Char × Nat) (h2 : 2 ≤ C)
    (hinv : FmtInv C st) (hge : C - 1 ≤ st.2) :
    (finishLine C st).length = C - 1 := by
  unfold finishLine FmtInv at *
  simp only [List.length_append, List.length_take, List.length_cons,
    List.length_nil]
  split_ifs <;> omega

theorem stdout_callback_length_le (C : Nat) (t : List Char) (lvl : Fin 6)
    (file : List Char) (line : Int) (msg : List Char) (h2 : 2 ≤ C) :
    (stdout_callback C t lvl file line msg).length ≤ C - 1 :=
  finishLine_length_le C _ h2

theorem stdout_callback_getLast (C : Nat) (t : List Char) (lvl : Fin 6)
    (file : List Char) (line : Int) (msg : List Char) :
    (stdout_callback C t lvl file line msg).getLast? = some '\n' :=
  finishLine_getLast C _

theorem stdout_callback_length_eq (C : Nat) (t : List Char) (lvl : Fin 6)
    (file : List Char) (line : Int) (msg : List Char) (h2 : 2 ≤ C)
    (hm : C ≤ msg.length) :
    (stdout_callback C t lvl file line msg).length = C - 1 := by
  refine finishLine_length_of_ge C _ h2 ?_ (putMsg_pos_ge C _ msg h2 hm)
  apply putMsg_inv
  apply putChar_inv
  apply putChar_inv
  apply putSnprintf_inv
  apply putChar_inv
  apply putStrBounded_inv
  apply putChar_inv
  apply putStrBounded_inv
  apply putChar_inv
  apply putTime_inv
  unfold FmtInv
  simp

/-- C4: the formatter never writes past the buffer (the emitted output
fits in the capacity), and the final byte of every emitted line is the
newline character, truncation included. -/
theorem formatter_bounded_and_newline (C : Nat) (t : List Char) (lvl : Fin 6)
    (file : List Char) (line : Int) (msg : List Char) (h2 : 2 ≤ C) :
    (stdout_callback C t lvl file line msg).length ≤ C ∧
      (stdout_callback C t lvl file line msg).getLast? = some '\n' :=
  ⟨le_trans (finishLine_length_le C _ h2) (by omega), finishLine_getLast C _⟩

/-- Witness for C4 at a concrete input: a 20-byte message into a 16-byte
buffer stays within 16 bytes and ends in a newline. -/
theorem formatter_bounded_and_newline_witness :
    (stdout_callback 16 "12:34:56".toList 2 "main.c".toList 7
        (List.replicate 20 'a')).length ≤ 16 ∧
      (stdout_callback 16 "12:34:56".toList 2 "main.c".toList 7
          (List.replicate 20 'a')).getLast? = some '\n' :=
  formatter_bounded_and_newline 16 "12:34:56".toList 2 "main.c".toList 7
    (List.replicate 20 'a') (by omega)

/-- C7 counterexample: with buffer capacity 16 no message ever produces an
emitted line of length 16 — the maximum emitted length is the capacity
minus one, not the capacity. -/
theorem line_length_capacity_unreachable :
    ¬ ∃ msg : List Char,
        (stdout_callback 16 "12:34:56".toList 2 "main.c".toList 7 msg).length
          = 16 := by
  rintro ⟨msg, hmsg⟩
  have hle := stdout_callback_length_le 16 "12:34:56".toList 2 "main.c".toList
    7 msg (by omega)
  omega

/-- C7 amended: the maximum emitted line length is the buffer capacity
minus one — no line is longer than `C - 1`, and every message whose
expansion is at least `C` long yields a line of length exactly `C - 1`. -/
theorem line_length_max (C : Nat) (t : List Char) (lvl : Fin 6)
    (file : List Char) (line : Int) (h2 : 2 ≤ C) :
    (∀ msg, (stdout_callback C t lvl file line msg).length ≤ C - 1) ∧
    (∀ msg, C ≤ msg.length →
       (stdout_callback C t lvl file line msg).length = C - 1) :=
  ⟨fun msg => stdout_callback_length_le C t lvl file line msg h2,
   fun msg hm => stdout_callback_length_eq C t lvl file line msg h2 hm⟩

/-- Witness for C7 (amended) at a concrete input: capacity 16. -/
theorem line_length_max_witness :
    (∀ msg, (stdout_callback 16 "12:34:56".toList 2 "main.c".toList 7
        msg).length ≤ 16 - 1) ∧
    (∀ msg, 16 ≤ msg.length →
       (stdout_callback 16 "12:34:56".toList 2 "main.c".toList 7
           msg).length = 16 - 1) :=
  line_length_max 16 "12:34:56".toList 2 "main.c".toList 7 (by omega)

/-! ### The untruncated wire format -/

theorem putTime_fits {C : Nat} {content : List Char} {pos : Nat}
    {t : List Char} (h : pos + t.length + 1 ≤ C) :
    putTime C (content, pos) t = (content ++ t, pos + t.length) := by
  show (if t.length + 1 ≤ C - pos then (content ++ t, pos + t.length)
      else (content, pos)) = (content ++ t, pos + t.length)
  rw [if_pos (show t.length + 1 ≤ C - pos by omega)]

theorem putChar_fits {C : Nat} {content : List Char} {pos : Nat} {ch : Char}
    (h : pos < C - 1) :
    putChar C (content, pos) ch = (content ++ [ch], pos + 1) := by
  show (if pos < C - 1 then (content ++ [ch], pos + 1)
      else (content, pos)) = (content ++ [ch], pos + 1)
  rw [if_pos h]

theorem putStrBounded_fits {C : Nat} {content : List Char} {pos : Nat}
    {s : List Char} (h : pos + s.length ≤ C - 1) :
    putStrBounded C (content, pos) s = (content ++ s, pos + s.length) := by
  show (content ++ s.take (min s.length (C - 1 - pos)),
      pos + min s.length (C - 1 - pos)) = (content ++ s, pos + s.length)
  rw [min_eq_left (by omega), List.take_of_length_le (le_refl _)]

theorem putSnprintf_fits {C : Nat} {content : List Char} {pos : Nat}
    {s : List Char} (h : pos + s.length ≤ C - 1) :
    putSnprintf C (content, pos) s = (content ++ s, pos + s.length) := by
  show (content ++ s.take (C - pos - 1), pos + s.length) =
    (content ++ s, pos + s.length)
  rw [List.take_of_length_le (show s.length ≤ C - pos - 1 by omega)]

theorem putMsg_fits {C : Nat} {content : List Char} {pos : Nat}
    {msg : List Char} (h2 : 2 ≤ C) (h : pos + msg.length ≤ C - 1) :
    putMsg C (content, pos) msg = (content ++ msg, pos + msg.length) := by
  show (if pos < C then
      (content ++ msg.take (C - pos - 1),
        pos + if msg.length < C - pos then msg.length else C - pos - 1)
    else (content, pos)) = (content ++ msg, pos + msg.length)
  rw [if_pos (show pos < C by omega),
    if_pos (show msg.length < C - pos by omega),
    List.take_of_length_le (show msg.length ≤ C - pos - 1 by omega)]

theorem finishLine_fits {C : Nat} {content : List Char} {pos : Nat}
    (h : pos < C - 1) (hlen : content.length = pos) :
    finishLine C (content, pos) = content ++ ['\n'] := by
  show List.take (if C - 1 ≤ pos then C - 2 else pos) content ++ ['\n'] =
    content ++ ['\n']
  rw [if_neg (by omega), ← hlen, List.take_length]

/-- When the whole line fits in the buffer with room for the newline and
the terminator, the emitted line is exactly
time, space, LEVEL, space, file, colon, line, colon, space, message,
newline, untruncated. -/
theorem stdout_callback_fits (C : Nat) (t : List Char) (lvl : Fin 6)
    (file : List Char) (line : Int) (msg : List Char)
    (hfit : t.length + (level_strings lvl).length + file.length +
        (lineStr line).length + msg.length + 5 < C - 1) :
    stdout_callback C t lvl file line msg =
      t ++ ' ' :: (level_strings lvl ++ ' ' :: (file ++ ':' ::
        (lineStr line ++ ':' :: ' ' :: (msg ++ ['\n'])))) := by
  simp only [stdout_callback]
  set L := level_strings lvl with hL
  set N := lineStr line with hN
  have e1 : putTime C ([], 0) t = (t, t.length) := by
    rw [putTime_fits]
    · simp
    · omega
  have e2 : putChar C (t, t.length) ' ' = (t ++ [' '], t.length + 1) := by
    rw [putChar_fits]
    omega
  have e3 : putStrBounded C (t ++ [' '], t.length + 1) L =
      (t ++ [' '] ++ L, t.length + 1 + L.length) := by
    rw [putStrBounded_fits]
    omega
  have e4 : putChar C (t ++ [' '] ++ L, t.length + 1 + L.length) ' ' =
      (t ++ [' '] ++ L ++ [' '], t.length + 1 + L.length + 1) := by
    rw [putChar_fits]
    omega
  have e5 : putStrBounded C (t ++ [' '] ++ L ++ [' '],
        t.length + 1 + L.length + 1) file =
      (t ++ [' '] ++ L ++ [' '] ++ file,
        t.length + 1 + L.length + 1 + file.length) := by
    rw [putStrBounded_fits]
    omega
  have e6 : putChar C (t ++ [' '] ++ L ++ [' '] ++ file,
        t.length + 1 + L.length + 1 + file.length) ':' =
      (t ++ [' '] ++ L ++ [' '] ++ file ++ [':'],
        t.length + 1 + L.length + 1 + file.length + 1) := by
    rw [putChar_fits]
    omega
  have e7 : putSnprintf C (t ++ [' '] ++ L ++ [' '] ++ file ++ [':'],
        t.length + 1 + L.length + 1 + file.length + 1) N =
      (t ++ [' '] ++ L ++ [' '] ++ file ++ [':'] ++ N,
        t.length + 1 + L.length + 1 + file.length + 1 + N.length) := by
    rw [putSnprintf_fits]
    omega
  have e8 : putChar C (t ++ [' '] ++ L ++ [' '] ++ file ++ [':'] ++ N,
        t.length + 1 + L.length + 1 + file.length + 1 + N.length) ':' =
      (t ++ [' '] ++ L ++ [' '] ++ file ++ [':'] ++ N ++ [':'],
        t.length + 1 + L.length + 1 + file.length + 1 + N.length + 1) := by
    rw [putChar_fits]
    omega
  have e9 : putChar C (t ++ [' '] ++ L ++ [' '] ++ file ++ [':'] ++ N ++ [':'],
        t.length + 1 + L.length + 1 + file.length + 1 + N.length + 1) ' ' =
      (t ++ [' '] ++ L ++ [' '] ++ file ++ [':'] ++ N ++ [':'] ++ [' '],
        t.length + 1 + L.length + 1 + file.length + 1 + N.length + 1 + 1) := by
    rw [putChar_fits]
    omega
  have e10 : putMsg C
      (t ++ [' '] ++ L ++ [' '] ++ file ++ [':'] ++ N ++ [':'] ++ [' '],
        t.length + 1 + L.length + 1 + file.length + 1 + N.length + 1 + 1) msg =
      (t ++ [' '] ++ L ++ [' '] ++ file ++ [':'] ++ N ++ [':'] ++ [' '] ++ msg,
        t.length + 1 + L.length + 1 + file.length + 1 + N.length + 1 + 1 +
          msg.length) := by
    rw [putMsg_fits]
    · omega
    · omega
  have e11 : finishLine C
      (t ++ [' '] ++ L ++ [' '] ++ file ++ [':'] ++ N ++ [':'] ++ [' '] ++ msg,
        t.length + 1 + L.length + 1 + file.length + 1 + N.length + 1 + 1 +
          msg.length) =
      t ++ [' '] ++ L ++ [' '] ++ file ++ [':'] ++ N ++ [':'] ++ [' '] ++ msg ++
        ['\n'] := by
    rw [finishLine_fits]
    · omega
    · simp only [List.length_append, List.length_cons, List.length_nil]
      try omega
  rw [e1, e2, e3, e4, e5, e6, e7, e8, e9, e10, e11]
  simp

/-- C8 counterexample: at level INFO the rendered line carries the
4-character name `INFO`, not a 5-character one — shown on a fully
concrete render. -/
theorem level_field_not_five_chars :
    stdout_callback 64 "12:34:56".toList 2 "main.c".toList 7 "hi".toList =
      "12:34:56 INFO main.c:7: hi\n".toList ∧
    level_strings 2 = "INFO".toList ∧ "INFO".toList.length ≠ 5 := by
  refine ⟨by decide, rfl, by decide⟩

/-- C8 amended: in an untruncated render the LEVEL field of the line
`HH:MM:SS LEVEL file:line: message` is the uppercase severity name of the
event's level, which is 4 characters for INFO and WARN and 5 characters
for the other levels. -/
theorem rendered_level_field (C : Nat) (t : List Char) (lvl : Fin 6)
    (file : List Char) (line : Int) (msg : List Char)
    (hfit : t.length + (level_strings lvl).length + file.length +
        (lineStr line).length + msg.length + 5 < C - 1) :
    stdout_callback C t lvl file line msg =
      t ++ ' ' :: (level_strings lvl ++ ' ' :: (file ++ ':' ::
        (lineStr line ++ ':' :: ' ' :: (msg ++ ['\n'])))) ∧
    ((level_strings lvl).length = 4 ∨ (level_strings lvl).length = 5) := by
  refine ⟨stdout_callback_fits C t lvl file line msg hfit, ?_⟩
  fin_cases lvl <;> simp [level_strings]

/-- Witness for C8 (amended) at a concrete input: a 64-byte buffer renders
the whole line with the field `INFO` between the time and the file. -/
theorem rendered_level_field_witness :
    ("12:34:56".toList.length + (level_strings 2).length +
        "main.c".toList.length + (lineStr 7).length + "hi".toList.length + 5 <
      64 - 1) ∧
    (stdout_callback 64 "12:34:56".toList 2 "main.c".toList 7 "hi".toList =
      "12:34:56".toList ++ ' ' :: (level_strings 2 ++ ' ' ::
        ("main.c".toList ++ ':' :: (lineStr 7 ++ ':' :: ' ' ::
          ("hi".toList ++ ['\n'])))) ∧
    ((level_strings 2).length = 4 ∨ (level_strings 2).length = 5)) :=
  ⟨by decide,
   rendered_level_field 64 "12:34:56".toList 2 "main.c".toList 7 "hi".toList
     (by decide)⟩

end LogC
